import Mathlib

/-!
Shallow embedding of `vector_memory.py` (repository NeerajG03/vector-memory):
the MCP tools `save_to_memory` and `recall_from_memory` over a Redis-backed
vector store.  External capabilities (path canonicalization, the file system,
the langchain document loaders, the text splitter and the vector-store
insert/search calls) are modelled as fields of an `Env` record; the control
flow, string messages, dedup scan, metadata tagging and result formatting are
translated line by line from the Python source.
-/

namespace VectorMemory

/-- One Redis hash entry of the index (pattern `doc_chunks:*`).  The dedup scan
in `save_to_memory` reads two possible metadata layouts: a direct
`source_file` hash field, or a `_metadata_json` field whose parsed dictionary
may hold a `source_file` key.  `source_field` is the direct field when
present; `metadata_json` is `some m` when the `_metadata_json` field is
present, with `m` the value of `metadata.get ("source_file")`. -/
structure Entry where
  key : Nat
  source_field : Option String
  metadata_json : Option (Option String)
  content : String
deriving DecidableEq, Repr

/-- The source path the dedup scan extracts from an entry, following the
`if b'source_file' in doc_data: ... elif b'_metadata_json' in doc_data: ...`
branching of `save_to_memory` (lines 71-79). -/
def storedSourcePath (e : Entry) : Option String :=
  match e.source_field with
  | some s => some s
  | none =>
    match e.metadata_json with
    | some m => m
    | none => none

/-- The vector index: the entries under `doc_chunks:*` plus a fresh-key
counter standing for Redis key generation in `add_documents`. -/
structure VIndex where
  entries : List Entry
  nextKey : Nat
deriving DecidableEq, Repr

/-- A chunk about to be inserted: `page_content` plus the
`metadata["source_file"]` value set by `save_to_memory` line 112. -/
structure Chunk where
  content : String
  source_file : String
deriving DecidableEq, Repr

/-- A document returned by `vector_store.similarity_search`:
`page_content` and the optional `source_file` metadata value. -/
structure RDoc where
  page_content : String
  source_file : Option String
deriving DecidableEq, Repr

/-- The external capabilities `vector_memory.py` calls into, plus explicit
failure injection for the two guarded phases.  `abspath` is
`os.path.abspath`; `fileExists` is `os.path.exists` on the canonical path;
`loadPdf` and `loadText` are `PyPDFLoader(p).load()` and
`TextLoader(p, encoding="utf-8").load()`, returning the per-document texts or
the raised exception's message; `split` is
`RecursiveCharacterTextSplitter(chunk_size, chunk_overlap).split_text`;
`dedupRaises a` injects an exception inside the per-path dedup `try` block
(Redis errors or a `json.loads` failure), in which case no key of that
iteration is deleted; `insertRaises` injects an exception from
`vector_store.add_documents`, with message `insertErrMsg`; `search` is
`vector_store.similarity_search(query, k)` or the exception it raises. -/
structure Env where
  abspath : String → String
  fileExists : String → Bool
  loadPdf : String → Except String (List String)
  loadText : String → Except String (List String)
  split : Int → Int → String → List String
  dedupRaises : String → Bool
  insertRaises : Bool
  insertErrMsg : String
  search : String → Int → Except String (List RDoc)

/-- Rightmost index of character `c` in the list, or `-1` when absent:
Python's `str.rfind` restricted to a single character, used to model
`os.path.splitext`. -/
def rfindChar (c : Char) : List Char → Nat → Int → Int
  | [], _, acc => acc
  | x :: xs, i, acc => rfindChar c xs (i + 1) (if x = c then (i : Int) else acc)

/-- Characterwise lowercasing, modelling Python's `str.lower()` as applied to
the extension in `ext = os.path.splitext(abs_path)[1].lower()` (line 96). -/
def lowerStr (s : String) : String :=
  String.mk (s.data.map Char.toLower)

/-- Extension part of `os.path.splitext(p)` (POSIX rules): the suffix from the
last dot occurring after the last `/`, unless every character between that
`/` and the dot is itself a dot (leading dots of a component do not start an
extension). -/
def extOf (p : String) : String :=
  let cs := p.data
  let sepIndex := rfindChar '/' cs 0 (-1)
  let dotIndex := rfindChar '.' cs 0 (-1)
  if sepIndex < dotIndex then
    let stem := (cs.drop (sepIndex + 1).toNat).take (dotIndex - sepIndex - 1).toNat
    if stem.any (fun ch => ch ≠ '.') then String.mk (cs.drop dotIndex.toNat) else ""
  else ""

/-- Dedup pass of `save_to_memory` (lines 58-85): for each listed path in
order, compute the canonical path, scan every entry and delete those whose
stored source path equals it; an exception inside the per-path `try` block is
swallowed and leaves that iteration's entries untouched. -/
def dedupPass (env : Env) (file_paths : List String) (idx : VIndex) : VIndex :=
  file_paths.foldl
    (fun acc fp =>
      let abs := env.abspath fp
      if env.dedupRaises abs then acc
      else
        { acc with
          entries := acc.entries.filter (fun e => storedSourcePath e ≠ some abs) })
    idx

/-- Load-and-chunk pass of `save_to_memory` (lines 88-116): for each path in
order, canonicalize, fail fast with `Error: File not found: <abs>` when the
file is missing, pick `PyPDFLoader` when the lowercased extension is `.pdf`
and fall back to `TextLoader` otherwise, turn a loader exception into
`Error processing <abs>: <msg>`, split each loaded document and tag every
chunk's metadata with the canonical path. -/
def loadAndChunk (env : Env) (chunk_size chunk_overlap : Int) :
    List String → Except String (List Chunk)
  | [] => Except.ok []
  | fp :: rest =>
    let abs := env.abspath fp
    if env.fileExists abs = false then
      Except.error ("Error: File not found: " ++ abs)
    else
      let ext := lowerStr (extOf abs)
      let loaded := if ext = ".pdf" then env.loadPdf abs else env.loadText abs
      match loaded with
      | Except.error msg => Except.error ("Error processing " ++ abs ++ ": " ++ msg)
      | Except.ok file_docs =>
        let chunks :=
          ((file_docs.map (env.split chunk_size chunk_overlap)).flatten).map
            (fun c => Chunk.mk c abs)
        match loadAndChunk env chunk_size chunk_overlap rest with
        | Except.error msg => Except.error msg
        | Except.ok more => Except.ok (chunks ++ more)

/-- Entries created by `vector_store.add_documents` for a list of chunks,
with consecutive fresh keys; the canonical path is stored verbatim in the
`source_file` metadata field. -/
def mkEntries (k : Nat) : List Chunk → List Entry
  | [] => []
  | c :: cs => Entry.mk k (some c.source_file) none c.content :: mkEntries (k + 1) cs

/-- `vector_store.add_documents(docs)` (line 120): append one entry per chunk
to the index. -/
def addDocuments (docs : List Chunk) (idx : VIndex) : VIndex :=
  { entries := idx.entries ++ mkEntries idx.nextKey docs
    nextKey := idx.nextKey + docs.length }

/-- Result of a Python tool call: a returned string, or an exception that
propagates out of the function uncaught. -/
inductive Outcome where
  | returned (msg : String)
  | raised (msg : String)
deriving DecidableEq, Repr

/-- Success message of `save_to_memory` (line 121), reproduced byte for byte
from the source, including its mojibake prefix. -/
def successMsg (n : Nat) : String :=
  "âœ… Successfully saved " ++ toString n ++
    " file(s) to memory. Content is now available for recall."

/-- Message of the `ValueError` langchain's `TextSplitter.__init__` raises.
The splitter construction (lines 54-56) is the only statement of
`save_to_memory` outside every `try` block; the library validates
`chunk_overlap > chunk_size` (strictly greater) and this exception
propagates out of the tool uncaught. -/
def overlapMsg (chunk_size chunk_overlap : Int) : String :=
  "Got a larger chunk overlap (" ++ toString chunk_overlap ++
    ") than chunk size (" ++ toString chunk_size ++ "), should be smaller."

/-- `save_to_memory(file_paths, chunk_size, chunk_overlap)` (lines 33-123):
construct the splitter (which raises when `chunk_overlap > chunk_size`), run
the dedup pass, run the load-and-chunk pass returning its error string when
it fails, then `add_documents` with its own `try` turning an insert exception
into `Error saving to memory: <msg>`.  Returns the outcome together with the
final index state. -/
def save_to_memory (env : Env) (idx : VIndex) (file_paths : List String)
    (chunk_size chunk_overlap : Int) : Outcome × VIndex :=
  if chunk_size < chunk_overlap then
    (Outcome.raised (overlapMsg chunk_size chunk_overlap), idx)
  else
    let idx1 := dedupPass env file_paths idx
    match loadAndChunk env chunk_size chunk_overlap file_paths with
    | Except.error msg => (Outcome.returned msg, idx1)
    | Except.ok docs =>
      if env.insertRaises then
        (Outcome.returned ("Error saving to memory: " ++ env.insertErrMsg), idx1)
      else
        (Outcome.returned (successMsg file_paths.length), addDocuments docs idx1)

/-- The zero-result notice of `recall_from_memory` (line 146). -/
def notice : String := "Nothing found in memory matching your query."

/-- One formatted block per result, numbered from `i` upward:
`enumerate(results, 1)` with the f-string of line 153, where a missing
`source_file` metadata value falls back to `"unknown"`. -/
def formatResults (i : Nat) : List RDoc → List String
  | [] => []
  | d :: ds =>
    ("**Result " ++ toString i ++ "**\nSource: " ++ d.source_file.getD "unknown" ++
        "\n\nContent:\n" ++ d.page_content ++ "\n") :: formatResults (i + 1) ds

/-- `recall_from_memory(query, k)` (lines 126-158): similarity search, the
explicit notice on zero results, otherwise the rank-numbered blocks joined by
`\n---\n`; an exception anywhere becomes `Error recalling from memory: <msg>`. -/
def recall_from_memory (env : Env) (query : String) (k : Int) : String :=
  match env.search query k with
  | Except.error msg => "Error recalling from memory: " ++ msg
  | Except.ok results =>
    if results.isEmpty then notice
    else String.intercalate "\n---\n" (formatResults 1 results)

/-- Number of index entries whose stored source path equals `a`; the measure
the idempotence and duplication claims count. -/
def countFor (a : String) (idx : VIndex) : Nat :=
  (idx.entries.filter (fun e => storedSourcePath e = some a)).length

/-! ### Concrete environments and indexes used by witnesses and
counterexamples -/

/-- A concrete benign environment: canonicalization prefixes `/`, every file
exists, both loaders yield one short document, the splitter returns the text
as a single chunk, and no phase raises. -/
def envA : Env where
  abspath := fun s => "/" ++ s
  fileExists := fun _ => true
  loadPdf := fun _ => Except.ok ["pdfpage"]
  loadText := fun _ => Except.ok ["hello world"]
  split := fun _ _ t => [t]
  dedupRaises := fun _ => false
  insertRaises := false
  insertErrMsg := ""
  search := fun _ _ => Except.ok []

/-- Like `envA` but no file exists, so the load pass fails fast. -/
def envB : Env :=
  { envA with fileExists := fun _ => false }

/-- Like `envA` but every dedup iteration raises (and is swallowed). -/
def envC : Env :=
  { envA with dedupRaises := fun _ => true }

/-- Like `envA` but `add_documents` raises. -/
def envD : Env :=
  { envA with insertRaises := true, insertErrMsg := "redis down" }

/-- Like `envA` but the similarity search returns one ranked result. -/
def envE : Env :=
  { envA with search := fun _ _ => Except.ok [RDoc.mk "hello world" (some "/a.txt")] }

/-- The empty index. -/
def idx0 : VIndex := ⟨[], 0⟩

/-- An index holding one stale entry for `/a.txt` (direct metadata field) and
one for `/b.txt` (JSON metadata field). -/
def idxAB : VIndex :=
  ⟨[Entry.mk 0 (some "/a.txt") none "old a", Entry.mk 1 none (some (some "/b.txt")) "old b"], 2⟩

/-! ### Basic lemmas about the passes -/

/-- Unfolding the dedup fold one path at a time. -/
theorem dedupPass_cons (env : Env) (fp : String) (rest : List String) (idx : VIndex) :
    dedupPass env (fp :: rest) idx =
      dedupPass env rest
        (if env.dedupRaises (env.abspath fp) then idx
         else
           { idx with
             entries := idx.entries.filter
               (fun e => storedSourcePath e ≠ some (env.abspath fp)) }) := rfl

/-- The dedup pass never touches the key counter. -/
theorem dedupPass_nextKey (env : Env) (paths : List String) (idx : VIndex) :
    (dedupPass env paths idx).nextKey = idx.nextKey := by
  induction paths generalizing idx with
  | nil => rfl
  | cons fp rest ih =>
    rw [dedupPass_cons, ih]
    split <;> rfl

/-- When no listed path's dedup iteration raises, the dedup pass is a single
filter dropping exactly the entries whose stored source path is the canonical
form of some listed path. -/
theorem dedupPass_entries (env : Env) (paths : List String) (idx : VIndex)
    (h : ∀ fp ∈ paths, env.dedupRaises (env.abspath fp) = false) :
    (dedupPass env paths idx).entries =
      idx.entries.filter
        (fun e => paths.all (fun fp => storedSourcePath e ≠ some (env.abspath fp))) := by
  induction paths generalizing idx with
  | nil => simp [dedupPass]
  | cons fp rest ih =>
    rw [dedupPass_cons]
    rw [if_neg (by simp [h fp (List.mem_cons_self fp rest)])]
    rw [ih _ (fun q hq => h q (List.mem_cons_of_mem fp hq))]
    show (idx.entries.filter _).filter _ = _
    rw [List.filter_filter]
    apply List.filter_congr
    intro e _
    simp [List.all_cons, Bool.and_comm]

/-- The dedup pass only deletes entries: its result is a sublist. -/
theorem dedupPass_sublist (env : Env) (paths : List String) (idx : VIndex) :
    (dedupPass env paths idx).entries.Sublist idx.entries := by
  induction paths generalizing idx with
  | nil => exact List.Sublist.refl _
  | cons fp rest ih =>
    rw [dedupPass_cons]
    split
    · exact ih idx
    · exact (ih _).trans (List.filter_sublist _)

/-- Counting entries for a path is monotone along sublists. -/
theorem countFor_mono (a : String) {j1 j2 : VIndex}
    (h : j1.entries.Sublist j2.entries) : countFor a j1 ≤ countFor a j2 := by
  unfold countFor
  exact List.Sublist.length_le (List.Sublist.filter _ h)

/-- Filtering away the matches of `a` leaves a count of zero for `a`. -/
theorem countFor_filter_self (a : String) (l : List Entry) (k : Nat) :
    countFor a ⟨l.filter (fun e => storedSourcePath e ≠ some a), k⟩ = 0 := by
  unfold countFor
  simp only [List.filter_filter, decide_not, Bool.and_not_self]
  simp

/-- After a non-raising dedup iteration for a listed path, no entry for that
path's canonical form survives the whole dedup pass. -/
theorem countFor_dedupPass_self (env : Env) (fp : String)
    (hr : env.dedupRaises (env.abspath fp) = false) :
    ∀ (paths : List String), fp ∈ paths → ∀ (idx : VIndex),
      countFor (env.abspath fp) (dedupPass env paths idx) = 0 := by
  intro paths
  induction paths with
  | nil => intro h; cases h
  | cons q rest ih =>
    intro hmem idx
    rw [dedupPass_cons]
    rcases List.mem_cons.mp hmem with heq | hmem'
    · subst heq
      rw [if_neg (by simp [hr])]
      refine Nat.le_zero.mp ?_
      calc countFor (env.abspath fp) (dedupPass env rest _) ≤ _ :=
            countFor_mono _ (dedupPass_sublist env rest _)
        _ = 0 := countFor_filter_self _ idx.entries idx.nextKey
    · exact ih hmem' _

/-- A freshly inserted entry's stored source path is its direct
`source_file` field. -/
theorem storedSourcePath_mk (k : Nat) (s : String) (m : Option (Option String))
    (c : String) : storedSourcePath (Entry.mk k (some s) m c) = some s := rfl

/-- The stored source path of a freshly inserted entry is the tagged
`source_file` of its chunk. -/
theorem mkEntries_count (a : String) (docs : List Chunk) : ∀ k : Nat,
    ((mkEntries k docs).filter (fun e => storedSourcePath e = some a)).length =
      (docs.filter (fun c => c.source_file = a)).length := by
  induction docs with
  | nil => intro k; rfl
  | cons c cs ih =>
    intro k
    simp only [mkEntries, List.filter_cons, storedSourcePath_mk, Option.some.injEq]
    by_cases h : c.source_file = a
    · simp [h, ih]
    · simp [h, ih]

/-- Inserting documents adds exactly the matching chunks to a path's count. -/
theorem countFor_addDocuments (a : String) (docs : List Chunk) (idx : VIndex) :
    countFor a (addDocuments docs idx) =
      countFor a idx + (docs.filter (fun c => c.source_file = a)).length := by
  unfold countFor addDocuments
  simp only [List.filter_append, List.length_append, mkEntries_count]

/-- Every entry produced by `mkEntries` comes from a chunk of the batch and
stores that chunk's tagged path verbatim in the `source_file` field. -/
theorem mkEntries_mem (docs : List Chunk) : ∀ (k : Nat) (e : Entry),
    e ∈ mkEntries k docs →
    ∃ c ∈ docs, e.source_field = some c.source_file ∧ e.content = c.content := by
  induction docs with
  | nil => intro k e h; cases h
  | cons c cs ih =>
    intro k e h
    rcases List.mem_cons.mp h with heq | hmem
    · exact ⟨c, List.mem_cons_self c cs, by rw [heq], by rw [heq]⟩
    · rcases ih (k + 1) e hmem with ⟨c', hc', h1, h2⟩
      exact ⟨c', List.mem_cons_of_mem c hc', h1, h2⟩

/-! ### Equations for the four outcomes of save -/

/-- Splitter construction raises before any phase runs. -/
theorem save_eq_raised (env : Env) (idx : VIndex) (paths : List String)
    (cs co : Int) (h : cs < co) :
    save_to_memory env idx paths cs co = (Outcome.raised (overlapMsg cs co), idx) := by
  simp [save_to_memory, h]

/-- A load-phase failure returns its message after the dedup pass. -/
theorem save_eq_loadError (env : Env) (idx : VIndex) (paths : List String)
    (cs co : Int) (msg : String) (h1 : ¬ cs < co)
    (h2 : loadAndChunk env cs co paths = Except.error msg) :
    save_to_memory env idx paths cs co =
      (Outcome.returned msg, dedupPass env paths idx) := by
  simp [save_to_memory, h1, h2]

/-- An insert-phase failure returns the wrapped message after the dedup pass. -/
theorem save_eq_insertError (env : Env) (idx : VIndex) (paths : List String)
    (cs co : Int) (docs : List Chunk) (h1 : ¬ cs < co)
    (h2 : loadAndChunk env cs co paths = Except.ok docs)
    (h3 : env.insertRaises = true) :
    save_to_memory env idx paths cs co =
      (Outcome.returned ("Error saving to memory: " ++ env.insertErrMsg),
        dedupPass env paths idx) := by
  simp [save_to_memory, h1, h2, h3]

/-- The success path: dedup, then insert all chunks. -/
theorem save_eq_success (env : Env) (idx : VIndex) (paths : List String)
    (cs co : Int) (docs : List Chunk) (h1 : ¬ cs < co)
    (h2 : loadAndChunk env cs co paths = Except.ok docs)
    (h3 : env.insertRaises = false) :
    save_to_memory env idx paths cs co =
      (Outcome.returned (successMsg paths.length),
        addDocuments docs (dedupPass env paths idx)) := by
  simp [save_to_memory, h1, h2, h3]

/-- Every chunk the load pass produces is tagged with the canonical form of
one of the listed paths. -/
theorem loadAndChunk_sources (env : Env) (cs co : Int) :
    ∀ (paths : List String) (docs : List Chunk),
      loadAndChunk env cs co paths = Except.ok docs →
      ∀ c ∈ docs, ∃ fp ∈ paths, c.source_file = env.abspath fp := by
  intro paths
  induction paths with
  | nil =>
    intro docs h c hc
    simp only [loadAndChunk] at h
    cases h
    cases hc
  | cons fp rest ih =>
    intro docs h c hc
    simp only [loadAndChunk] at h
    split at h
    · cases h
    · split at h
      · cases h
      · split at h
        · cases h
        · cases h
          rcases List.mem_append.mp hc with hl | hr
          · rcases List.mem_map.mp hl with ⟨t, _, ht⟩
            exact ⟨fp, List.mem_cons_self fp rest, by rw [← ht]⟩
          · rcases ih _ (by assumption) c hr with ⟨q, hq, hcq⟩
            exact ⟨q, List.mem_cons_of_mem fp hq, hcq⟩

/-- Every error message of the load pass names the canonical form of the
offending listed path: either the file-not-found message or the
processing-error wrapper around the loader's exception. -/
theorem loadAndChunk_error (env : Env) (cs co : Int) :
    ∀ (paths : List String) (msg : String),
      loadAndChunk env cs co paths = Except.error msg →
      ∃ fp ∈ paths, msg = "Error: File not found: " ++ env.abspath fp ∨
        ∃ s, msg = "Error processing " ++ env.abspath fp ++ ": " ++ s := by
  intro paths
  induction paths with
  | nil =>
    intro msg h
    simp only [loadAndChunk] at h
    cases h
  | cons fp rest ih =>
    intro msg h
    simp only [loadAndChunk] at h
    split at h
    · cases h
      exact ⟨fp, List.mem_cons_self fp rest, Or.inl rfl⟩
    · split at h
      · cases h
        exact ⟨fp, List.mem_cons_self fp rest, Or.inr ⟨_, rfl⟩⟩
      · split at h
        · cases h
          rcases ih _ (by assumption) with ⟨q, hq, hmsg⟩
          exact ⟨q, List.mem_cons_of_mem fp hq, hmsg⟩
        · cases h

/-- An entry with a direct `source_file` field stores that value as its
source path, whatever the JSON field holds. -/
theorem storedSourcePath_of_field {e : Entry} {s : String}
    (h : e.source_field = some s) : storedSourcePath e = some s := by
  unfold storedSourcePath
  rw [h]

/-- When some listed path is missing, or exists but its chosen loader fails,
the load pass fails (the first such failure in path order aborts it). -/
theorem loadAndChunk_error_of_bad (env : Env) (cs co : Int) :
    ∀ (paths : List String),
      (∃ fp ∈ paths, env.fileExists (env.abspath fp) = false ∨
        (if lowerStr (extOf (env.abspath fp)) = ".pdf"
         then env.loadPdf (env.abspath fp)
         else env.loadText (env.abspath fp)).isOk = false) →
      ∃ msg, loadAndChunk env cs co paths = Except.error msg := by
  intro paths
  induction paths with
  | nil =>
    rintro ⟨fp, hfp, _⟩
    cases hfp
  | cons q rest ih =>
    rintro ⟨fp, hfp, hbad⟩
    by_cases hexq : env.fileExists (env.abspath q) = false
    · refine ⟨"Error: File not found: " ++ env.abspath q, ?_⟩
      simp only [loadAndChunk]
      rw [if_pos hexq]
    · rcases List.mem_cons.mp hfp with heq | hmem
      · subst heq
        rcases hbad with hb | hb
        · exact absurd hb hexq
        · cases hload : (if lowerStr (extOf (env.abspath fp)) = ".pdf"
              then env.loadPdf (env.abspath fp) else env.loadText (env.abspath fp)) with
          | error m =>
            refine ⟨"Error processing " ++ env.abspath fp ++ ": " ++ m, ?_⟩
            simp only [loadAndChunk]
            rw [if_neg hexq]
            simp only [hload]
          | ok fd =>
            rw [hload] at hb
            simp [Except.isOk, Except.toBool] at hb
      · rcases ih ⟨fp, hmem, hbad⟩ with ⟨m, hm⟩
        cases hload : (if lowerStr (extOf (env.abspath q)) = ".pdf"
            then env.loadPdf (env.abspath q) else env.loadText (env.abspath q)) with
        | error m2 =>
          refine ⟨"Error processing " ++ env.abspath q ++ ": " ++ m2, ?_⟩
          simp only [loadAndChunk]
          rw [if_neg hexq]
          simp only [hload]
        | ok fd =>
          refine ⟨m, ?_⟩
          simp only [loadAndChunk]
          rw [if_neg hexq]
          simp only [hload, hm]

/-- The dedup pass leaves the entries of any other source path untouched,
whether or not any iteration raises: filtering the result for a path `b`
that is not the canonical form of any listed path gives back the initial
filter. -/
theorem dedupPass_filter_other (env : Env) (b : String) :
    ∀ (paths : List String), (∀ fp ∈ paths, env.abspath fp ≠ b) →
      ∀ idx : VIndex,
        (dedupPass env paths idx).entries.filter
            (fun e => storedSourcePath e = some b) =
          idx.entries.filter (fun e => storedSourcePath e = some b) := by
  intro paths
  induction paths with
  | nil => intro _ idx; rfl
  | cons q rest ih =>
    intro hb idx
    rw [dedupPass_cons]
    split
    · exact ih (fun fp hfp => hb fp (List.mem_cons_of_mem q hfp)) idx
    · rw [ih (fun fp hfp => hb fp (List.mem_cons_of_mem q hfp))]
      show (idx.entries.filter _).filter _ = _
      rw [List.filter_filter]
      apply List.filter_congr
      intro e _
      by_cases hsp : storedSourcePath e = some b
      · have hbq : b ≠ env.abspath q := fun hh => hb q (List.mem_cons_self q rest) hh.symm
        simp [hsp, hbq]
      · simp [hsp]

/-- Load pass on a single path whose lowercased extension is not `.pdf`: the
text loader is consulted, its error is wrapped, its documents are chunked. -/
theorem loadAndChunk_single (env : Env) (cs co : Int) (fp : String)
    (hex : env.fileExists (env.abspath fp) = true)
    (hext : lowerStr (extOf (env.abspath fp)) ≠ ".pdf") :
    loadAndChunk env cs co [fp] =
      match env.loadText (env.abspath fp) with
      | Except.error msg =>
        Except.error ("Error processing " ++ env.abspath fp ++ ": " ++ msg)
      | Except.ok file_docs =>
        Except.ok (((file_docs.map (env.split cs co)).flatten).map
          (fun c => Chunk.mk c (env.abspath fp))) := by
  cases hlt : env.loadText (env.abspath fp) with
  | error msg => simp [loadAndChunk, hex, hext, hlt]
  | ok ds => simp [loadAndChunk, hex, hext, hlt]

/-- A successful load pass over concatenated path lists yields the
concatenated chunk lists, in order. -/
theorem loadAndChunk_append (env : Env) (cs co : Int) :
    ∀ (l1 l2 : List String) (d1 d2 : List Chunk),
      loadAndChunk env cs co l1 = Except.ok d1 →
      loadAndChunk env cs co l2 = Except.ok d2 →
      loadAndChunk env cs co (l1 ++ l2) = Except.ok (d1 ++ d2) := by
  intro l1
  induction l1 with
  | nil =>
    intro l2 d1 d2 h1 h2
    simp only [loadAndChunk] at h1
    cases h1
    simpa using h2
  | cons fp rest ih =>
    intro l2 d1 d2 h1 h2
    rw [List.cons_append]
    simp only [loadAndChunk] at h1 ⊢
    by_cases hex : env.fileExists (env.abspath fp) = false
    · rw [if_pos hex] at h1
      cases h1
    · rw [if_neg hex] at h1 ⊢
      cases hload : (if lowerStr (extOf (env.abspath fp)) = ".pdf"
          then env.loadPdf (env.abspath fp) else env.loadText (env.abspath fp)) with
      | error m =>
        simp only [hload] at h1
        cases h1
      | ok fd =>
        simp only [hload] at h1 ⊢
        cases hrest : loadAndChunk env cs co rest with
        | error m =>
          simp only [hrest] at h1
          cases h1
        | ok more =>
          simp only [hrest] at h1
          cases h1
          rw [ih l2 more d2 hrest h2]
          simp [List.append_assoc]

/-- The formatted result list has one block per search result. -/
theorem formatResults_length : ∀ (n : Nat) (rs : List RDoc),
    (formatResults n rs).length = rs.length := by
  intro n rs
  induction rs generalizing n with
  | nil => rfl
  | cons d ds ih => simp [formatResults, ih]

/-- The block at position `i` of the formatting that starts numbering at `n`
carries the number `n + i` together with the result's source and content. -/
theorem formatResults_get : ∀ (rs : List RDoc) (n i : Nat) (d : RDoc),
    rs[i]? = some d →
    (formatResults n rs)[i]? =
      some ("**Result " ++ toString (n + i) ++ "**\nSource: " ++
        d.source_file.getD "unknown" ++ "\n\nContent:\n" ++ d.page_content ++ "\n") := by
  intro rs
  induction rs with
  | nil => intro n i d h; simp at h
  | cons x xs ih =>
    intro n i d h
    cases i with
    | zero =>
      simp only [List.getElem?_cons_zero, Option.some.injEq] at h
      subst h
      simp [formatResults]
    | succ j =>
      rw [show formatResults n (x :: xs) =
        ("**Result " ++ toString n ++ "**\nSource: " ++ x.source_file.getD "unknown" ++
          "\n\nContent:\n" ++ x.page_content ++ "\n") :: formatResults (n + 1) xs from rfl]
      rw [List.getElem?_cons_succ]
      rw [ih (n + 1) j d (by simpa using h)]
      have hn : n + 1 + j = n + (j + 1) := by omega
      rw [hn]

/-- The zero-result notice is a nonempty string. -/
theorem notice_ne_empty : notice ≠ "" := by decide

/-- The zero-result notice is not any error string of `recall_from_memory`:
the two start with different characters. -/
theorem notice_ne_err (msg : String) :
    notice ≠ "Error recalling from memory: " ++ msg := by
  intro h
  have hd := congrArg String.data h
  rw [String.data_append] at hd
  have h1 : notice.data.head? = some 'N' := rfl
  rw [hd] at h1
  have h2 : (("Error recalling from memory: ").data ++ msg.data).head? = some 'E' := rfl
  rw [h2] at h1
  simp at h1

/-! ### Claims -/

/-- Claim C1: re-saving the same file path is idempotent on the entry count
for that path.  For every path `p`, saving `[p]` and then saving `[p]` again
leaves exactly as many index entries whose stored source path equals the
canonical form of `p` as a single save does, because the dedup pass deletes
every existing entry for that canonical path before the fresh chunks are
inserted; the hypothesis states that the (exception-swallowing) dedup
iteration for `p` does not raise. -/
theorem c1_idempotent_resave (env : Env) (idx : VIndex) (p : String) (cs co : Int)
    (h : env.dedupRaises (env.abspath p) = false) :
    countFor (env.abspath p)
        (save_to_memory env (save_to_memory env idx [p] cs co).2 [p] cs co).2 =
      countFor (env.abspath p) (save_to_memory env idx [p] cs co).2 := by
  by_cases hcs : cs < co
  · simp [save_to_memory, hcs]
  · have key : ∀ j : VIndex,
        countFor (env.abspath p) (save_to_memory env j [p] cs co).2 =
          (match loadAndChunk env cs co [p] with
           | Except.error _ => 0
           | Except.ok docs =>
             if env.insertRaises = true then 0
             else (docs.filter (fun c => c.source_file = env.abspath p)).length) := by
      intro j
      cases hld : loadAndChunk env cs co [p] with
      | error msg =>
        rw [save_eq_loadError env j [p] cs co msg hcs hld]
        exact countFor_dedupPass_self env p h [p] (List.mem_cons_self p []) j
      | ok docs =>
        cases hins : env.insertRaises with
        | true =>
          rw [save_eq_insertError env j [p] cs co docs hcs hld hins]
          exact countFor_dedupPass_self env p h [p] (List.mem_cons_self p []) j
        | false =>
          rw [save_eq_success env j [p] cs co docs hcs hld hins]
          show countFor _ (addDocuments docs (dedupPass env [p] j)) = _
          rw [countFor_addDocuments,
            countFor_dedupPass_self env p h [p] (List.mem_cons_self p []) j]
          simp
    rw [key, key]

/-- Witness for C1 at a concrete input: the benign environment, the empty
index and the path `a.txt`. -/
theorem c1_witness :
    envA.dedupRaises (envA.abspath "a.txt") = false ∧
    countFor (envA.abspath "a.txt")
        (save_to_memory envA (save_to_memory envA idx0 ["a.txt"] 1000 100).2
          ["a.txt"] 1000 100).2 =
      countFor (envA.abspath "a.txt") (save_to_memory envA idx0 ["a.txt"] 1000 100).2 :=
  ⟨rfl, c1_idempotent_resave envA idx0 "a.txt" 1000 100 rfl⟩

/-- Counterexample to claim C2 as stated: `save_to_memory` has no
unsupported-type rejection.  At the concrete input `["image.png"]` — a path
whose type is neither plain text nor PDF — with a text loader that happens to
decode the bytes, the call returns the success message (not an error string)
and an index entry for the file IS created, contradicting both required
outcomes of the claim. -/
theorem c2_counterexample :
    (save_to_memory envA idx0 ["image.png"] 1000 100).1 =
        Outcome.returned (successMsg 1) ∧
    (save_to_memory envA idx0 ["image.png"] 1000 100).2.entries =
        [Entry.mk 0 (some "/image.png") none "hello world"] :=
  ⟨rfl, rfl⟩

/-- Claim C2, amended: `save_to_memory` performs no content-type check.  Any
existing path whose lowercased extension is not `.pdf` is handed to the UTF-8
text loader (line 102's fallback): when that loader succeeds the content is
chunked and indexed like a text file and the call reports success, and when
it raises, the call returns `Error processing <abs path>: <exception>`, which
names the file but is a load failure, not an unsupported-type rejection. -/
theorem c2_text_fallback (env : Env) (idx : VIndex) (fp : String) (cs co : Int)
    (hcs : ¬ cs < co)
    (hext : lowerStr (extOf (env.abspath fp)) ≠ ".pdf")
    (hex : env.fileExists (env.abspath fp) = true) :
    (∀ ds, env.loadText (env.abspath fp) = Except.ok ds →
      env.insertRaises = false →
      (save_to_memory env idx [fp] cs co).1 = Outcome.returned (successMsg 1)) ∧
    (∀ msg, env.loadText (env.abspath fp) = Except.error msg →
      (save_to_memory env idx [fp] cs co).1 =
        Outcome.returned ("Error processing " ++ env.abspath fp ++ ": " ++ msg)) := by
  constructor
  · intro ds hok hins
    have hld : loadAndChunk env cs co [fp] =
        Except.ok (((ds.map (env.split cs co)).flatten).map
          (fun c => Chunk.mk c (env.abspath fp))) := by
      rw [loadAndChunk_single env cs co fp hex hext, hok]
    rw [save_eq_success env idx [fp] cs co _ hcs hld hins]
    rfl
  · intro msg herr
    have hld : loadAndChunk env cs co [fp] =
        Except.error ("Error processing " ++ env.abspath fp ++ ": " ++ msg) := by
      rw [loadAndChunk_single env cs co fp hex hext, herr]
    rw [save_eq_loadError env idx [fp] cs co _ hcs hld]

/-- Witness for the amended C2 at the concrete input `image.png`: the text
fallback succeeds and the call reports success. -/
theorem c2_witness :
    (¬ (1000 : Int) < 100) ∧
    lowerStr (extOf (envA.abspath "image.png")) ≠ ".pdf" ∧
    envA.fileExists (envA.abspath "image.png") = true ∧
    (save_to_memory envA idx0 ["image.png"] 1000 100).1 =
      Outcome.returned (successMsg 1) :=
  ⟨by decide, by decide, rfl,
    (c2_text_fallback envA idx0 "image.png" 1000 100 (by decide) (by decide) rfl).1
      ["hello world"] rfl rfl⟩

/-- Claim C3: the dedup deletion loop over all listed paths runs to
completion before any path is checked for existence or loaded, so when the
call returns a load-phase error string (file not found or processing error),
the final index is the initial one with the pre-existing entries of EVERY
listed path — including paths after the failing one — already deleted and
not restored, and nothing inserted. -/
theorem c3_dedup_before_load (env : Env) (idx : VIndex) (paths : List String)
    (cs co : Int) (msg : String) (hcs : ¬ cs < co)
    (hraise : ∀ fp ∈ paths, env.dedupRaises (env.abspath fp) = false)
    (hld : loadAndChunk env cs co paths = Except.error msg) :
    (save_to_memory env idx paths cs co).1 = Outcome.returned msg ∧
    (save_to_memory env idx paths cs co).2.entries =
      idx.entries.filter
        (fun e => paths.all (fun fp => storedSourcePath e ≠ some (env.abspath fp))) := by
  rw [save_eq_loadError env idx paths cs co msg hcs hld]
  exact ⟨rfl, dedupPass_entries env paths idx hraise⟩

/-- Witness for C3 at a concrete input: both listed files are missing, the
call fails on the first, yet the stale entries of both `/a.txt` and `/b.txt`
(one stored in each metadata format) are gone from the final index. -/
theorem c3_witness :
    loadAndChunk envB 1000 100 ["a.txt", "b.txt"] =
        Except.error "Error: File not found: /a.txt" ∧
    (save_to_memory envB idxAB ["a.txt", "b.txt"] 1000 100).1 =
        Outcome.returned "Error: File not found: /a.txt" ∧
    (save_to_memory envB idxAB ["a.txt", "b.txt"] 1000 100).2.entries = [] :=
  ⟨rfl,
    (c3_dedup_before_load envB idxAB ["a.txt", "b.txt"] 1000 100
      "Error: File not found: /a.txt" (by decide) (fun fp _ => rfl) rfl).1,
    by
      rw [(c3_dedup_before_load envB idxAB ["a.txt", "b.txt"] 1000 100
        "Error: File not found: /a.txt" (by decide) (fun fp _ => rfl) rfl).2]
      rfl⟩

/-- Claim C4: a missing or unreadable file aborts the whole save.  First
conjunct: whenever the load pass fails, the call returns its message as a
value (not an exception), no new entries are inserted (the final entries
form a sublist of the initial ones), and the message identifies the
offending canonical path, either as `Error: File not found: <abs>` or as
`Error processing <abs>: <exception>`.  Second conjunct: whenever some
listed path is missing or its loader fails, the load pass does fail. -/
theorem c4_fail_fast (env : Env) (idx : VIndex) (paths : List String)
    (cs co : Int) (hcs : ¬ cs < co) :
    (∀ msg, loadAndChunk env cs co paths = Except.error msg →
      (save_to_memory env idx paths cs co).1 = Outcome.returned msg ∧
      (save_to_memory env idx paths cs co).2.entries.Sublist idx.entries ∧
      ∃ fp ∈ paths, msg = "Error: File not found: " ++ env.abspath fp ∨
        ∃ s, msg = "Error processing " ++ env.abspath fp ++ ": " ++ s) ∧
    ((∃ fp ∈ paths, env.fileExists (env.abspath fp) = false ∨
        (if lowerStr (extOf (env.abspath fp)) = ".pdf"
         then env.loadPdf (env.abspath fp)
         else env.loadText (env.abspath fp)).isOk = false) →
      ∃ msg, loadAndChunk env cs co paths = Except.error msg) := by
  constructor
  · intro msg hld
    rw [save_eq_loadError env idx paths cs co msg hcs hld]
    exact ⟨rfl, dedupPass_sublist env paths idx,
      loadAndChunk_error env cs co paths msg hld⟩
  · exact loadAndChunk_error_of_bad env cs co paths

/-- Witness for C4 at a concrete input: one missing file. -/
theorem c4_witness :
    (¬ (1000 : Int) < 100) ∧
    loadAndChunk envB 1000 100 ["missing.txt"] =
        Except.error "Error: File not found: /missing.txt" ∧
    (save_to_memory envB idx0 ["missing.txt"] 1000 100).1 =
        Outcome.returned "Error: File not found: /missing.txt" ∧
    (save_to_memory envB idx0 ["missing.txt"] 1000 100).2.entries.Sublist
        idx0.entries ∧
    (∃ msg, loadAndChunk envB 1000 100 ["missing.txt"] = Except.error msg) :=
  ⟨by decide, rfl,
    ((c4_fail_fast envB idx0 ["missing.txt"] 1000 100 (by decide)).1
      "Error: File not found: /missing.txt" rfl).1,
    ((c4_fail_fast envB idx0 ["missing.txt"] 1000 100 (by decide)).1
      "Error: File not found: /missing.txt" rfl).2.1,
    (c4_fail_fast envB idx0 ["missing.txt"] 1000 100 (by decide)).2
      ⟨"missing.txt", List.mem_singleton.mpr rfl, Or.inl rfl⟩⟩

/-- Counterexample to claim C5 as stated: at the concrete configuration
`chunk_size = 5, chunk_overlap = 5` — a pair with `chunk_overlap >=
chunk_size` — nothing is rejected: the save proceeds through every phase,
returns the success message and inserts the chunk.  (The splitter's own
validation fires only for strictly larger overlap, and even then as a raised
exception, not a returned result value.) -/
theorem c5_counterexample :
    (save_to_memory envA idx0 ["a.txt"] 5 5).1 = Outcome.returned (successMsg 1) ∧
    (save_to_memory envA idx0 ["a.txt"] 5 5).2.entries =
      [Entry.mk 0 (some "/a.txt") none "hello world"] :=
  ⟨rfl, rfl⟩

/-- Claim C5, amended: only `chunk_overlap` strictly greater than
`chunk_size` is rejected, by the splitter constructor's `ValueError`, which
propagates out of `save_to_memory` as a raised exception (the construction is
outside every `try`) before any phase touches the index; when
`chunk_overlap <= chunk_size` — including equality — nothing is ever raised
and every outcome is a returned string. -/
theorem c5_overlap_check (env : Env) (idx : VIndex) (paths : List String)
    (cs co : Int) :
    (cs < co →
      save_to_memory env idx paths cs co = (Outcome.raised (overlapMsg cs co), idx)) ∧
    (¬ cs < co → ∀ m, (save_to_memory env idx paths cs co).1 ≠ Outcome.raised m) := by
  constructor
  · intro h
    exact save_eq_raised env idx paths cs co h
  · intro h m
    cases hld : loadAndChunk env cs co paths with
    | error msg =>
      rw [save_eq_loadError env idx paths cs co msg h hld]
      simp
    | ok docs =>
      cases hins : env.insertRaises with
      | true =>
        rw [save_eq_insertError env idx paths cs co docs h hld hins]
        simp
      | false =>
        rw [save_eq_success env idx paths cs co docs h hld hins]
        simp

/-- Witness for the amended C5 at concrete configurations: overlap 6 over
size 5 raises the splitter's message and leaves the index untouched; overlap
5 over size 5 raises nothing. -/
theorem c5_witness :
    ((5 : Int) < 6) ∧
    save_to_memory envA idx0 ["a.txt"] 5 6 =
      (Outcome.raised (overlapMsg 5 6), idx0) ∧
    (¬ (5 : Int) < 5) ∧
    (save_to_memory envA idx0 ["a.txt"] 5 5).1 ≠ Outcome.raised "boom" :=
  ⟨by decide,
    (c5_overlap_check envA idx0 ["a.txt"] 5 6).1 (by decide),
    by decide,
    (c5_overlap_check envA idx0 ["a.txt"] 5 5).2 (by decide) "boom"⟩

/-- Claim C6: the two failure policies of save.  With no assumption at all on
the dedup-phase failure flag — so in particular when every dedup iteration
raises and is swallowed — a save whose load pass succeeds still returns the
success message when insertion works, while an insert-phase exception is
fatal for the call, which returns the wrapped `Error saving to memory`
string instead. -/
theorem c6_failure_policy (env : Env) (idx : VIndex) (paths : List String)
    (cs co : Int) (docs : List Chunk) (hcs : ¬ cs < co)
    (hld : loadAndChunk env cs co paths = Except.ok docs) :
    (env.insertRaises = false →
      (save_to_memory env idx paths cs co).1 =
        Outcome.returned (successMsg paths.length)) ∧
    (env.insertRaises = true →
      (save_to_memory env idx paths cs co).1 =
        Outcome.returned ("Error saving to memory: " ++ env.insertErrMsg)) := by
  constructor
  · intro hins
    rw [save_eq_success env idx paths cs co docs hcs hld hins]
  · intro hins
    rw [save_eq_insertError env idx paths cs co docs hcs hld hins]

/-- Witness for C6 at concrete inputs: in `envC` every dedup iteration raises
yet the save succeeds; in `envD` the insert raises and the call returns the
wrapped error. -/
theorem c6_witness :
    loadAndChunk envC 1000 100 ["a.txt"] =
        Except.ok [Chunk.mk "hello world" "/a.txt"] ∧
    (save_to_memory envC idxAB ["a.txt"] 1000 100).1 =
        Outcome.returned (successMsg 1) ∧
    (save_to_memory envD idx0 ["a.txt"] 1000 100).1 =
        Outcome.returned ("Error saving to memory: " ++ "redis down") :=
  ⟨rfl,
    (c6_failure_policy envC idxAB ["a.txt"] 1000 100
      [Chunk.mk "hello world" "/a.txt"] (by decide) rfl).1 rfl,
    (c6_failure_policy envD idx0 ["a.txt"] 1000 100
      [Chunk.mk "hello world" "/a.txt"] (by decide) rfl).2 rfl⟩

/-- Claim C7: dedup isolation.  A save never deletes or alters the entries
of a source path `b` that is not the canonical form of any listed path: in
every outcome of the call, filtering the final index for `b` returns exactly
the initial entries for `b` — the dedup pass only removes exact matches of
the canonicalized listed paths and the insert pass only adds entries tagged
with them. -/
theorem c7_dedup_isolation (env : Env) (idx : VIndex) (paths : List String)
    (cs co : Int) (b : String) (hb : ∀ fp ∈ paths, env.abspath fp ≠ b) :
    (save_to_memory env idx paths cs co).2.entries.filter
        (fun e => storedSourcePath e = some b) =
      idx.entries.filter (fun e => storedSourcePath e = some b) := by
  by_cases hcs : cs < co
  · rw [save_eq_raised env idx paths cs co hcs]
  · cases hld : loadAndChunk env cs co paths with
    | error msg =>
      rw [save_eq_loadError env idx paths cs co msg hcs hld]
      exact dedupPass_filter_other env b paths hb idx
    | ok docs =>
      cases hins : env.insertRaises with
      | true =>
        rw [save_eq_insertError env idx paths cs co docs hcs hld hins]
        exact dedupPass_filter_other env b paths hb idx
      | false =>
        rw [save_eq_success env idx paths cs co docs hcs hld hins]
        show ((dedupPass env paths idx).entries ++
          mkEntries (dedupPass env paths idx).nextKey docs).filter _ = _
        rw [List.filter_append]
        have hnil : (mkEntries (dedupPass env paths idx).nextKey docs).filter
            (fun e => storedSourcePath e = some b) = [] := by
          rw [List.filter_eq_nil_iff]
          intro e he
          rcases mkEntries_mem docs _ e he with ⟨c, hc, h1, _⟩
          rcases loadAndChunk_sources env cs co paths docs hld c hc with ⟨fp, hfp, hcf⟩
          have hsp : storedSourcePath e = some (env.abspath fp) := by
            rw [storedSourcePath_of_field h1, hcf]
          simp [hsp, hb fp hfp]
        rw [hnil, List.append_nil]
        exact dedupPass_filter_other env b paths hb idx

/-- Witness for C7 at a concrete input: saving `a.txt` over an index holding
a `/a.txt` entry and a `/b.txt` entry leaves the `/b.txt` entry exactly as it
was. -/
theorem c7_witness :
    (∀ fp ∈ ["a.txt"], envA.abspath fp ≠ "/b.txt") ∧
    (save_to_memory envA idxAB ["a.txt"] 1000 100).2.entries.filter
        (fun e => storedSourcePath e = some "/b.txt") =
      idxAB.entries.filter (fun e => storedSourcePath e = some "/b.txt") :=
  ⟨by decide, c7_dedup_isolation envA idxAB ["a.txt"] 1000 100 "/b.txt" (by decide)⟩

/-- Claim C8: canonical-path tagging.  On a successful save, the final index
is the dedup result plus exactly one entry per produced chunk; every chunk is
tagged with the canonical absolute form of the listed path it came from; and
every inserted entry stores that tag verbatim in its `source_file` metadata
field, which is also the identity (`storedSourcePath`) the dedup scan of a
later save compares against. -/
theorem c8_canonical_tagging (env : Env) (idx : VIndex) (paths : List String)
    (cs co : Int) (docs : List Chunk) (hcs : ¬ cs < co)
    (hld : loadAndChunk env cs co paths = Except.ok docs)
    (hins : env.insertRaises = false) :
    (save_to_memory env idx paths cs co).2.entries =
      (dedupPass env paths idx).entries ++
        mkEntries (dedupPass env paths idx).nextKey docs ∧
    (∀ c ∈ docs, ∃ fp ∈ paths, c.source_file = env.abspath fp) ∧
    ∀ e ∈ mkEntries (dedupPass env paths idx).nextKey docs,
      ∃ c ∈ docs, e.source_field = some c.source_file ∧
        storedSourcePath e = some c.source_file ∧ e.content = c.content := by
  refine ⟨?_, loadAndChunk_sources env cs co paths docs hld, ?_⟩
  · rw [save_eq_success env idx paths cs co docs hcs hld hins]
    rfl
  · intro e he
    rcases mkEntries_mem docs _ e he with ⟨c, hc, h1, h2⟩
    exact ⟨c, hc, h1, storedSourcePath_of_field h1, h2⟩

/-- Witness for C8 at a concrete input: saving `a.txt` appends one entry
tagged verbatim with the canonical path `/a.txt`. -/
theorem c8_witness :
    (¬ (1000 : Int) < 100) ∧
    loadAndChunk envA 1000 100 ["a.txt"] =
      Except.ok [Chunk.mk "hello world" "/a.txt"] ∧
    envA.insertRaises = false ∧
    (save_to_memory envA idx0 ["a.txt"] 1000 100).2.entries =
      (dedupPass envA ["a.txt"] idx0).entries ++
        mkEntries (dedupPass envA ["a.txt"] idx0).nextKey
          [Chunk.mk "hello world" "/a.txt"] :=
  ⟨by decide, rfl, rfl,
    (c8_canonical_tagging envA idx0 ["a.txt"] 1000 100
      [Chunk.mk "hello world" "/a.txt"] (by decide) rfl rfl).1⟩

/-- Claim C9: recall formatting.  When the search returns zero results,
`recall_from_memory` returns the explicit notice, which is neither empty nor
any of recall's error strings; when it returns a nonempty ranked list, the
output is one block per result joined by the visible `\n---\n` separator,
and the block at position `i` is numbered `1 + i` (rank 1 first) and carries
that result's source path and content. -/
theorem c9_recall_format (env : Env) (query : String) (k : Int) :
    (env.search query k = Except.ok [] → recall_from_memory env query k = notice) ∧
    notice ≠ "" ∧
    (∀ msg, notice ≠ "Error recalling from memory: " ++ msg) ∧
    (∀ results, env.search query k = Except.ok results → results ≠ [] →
      recall_from_memory env query k =
        String.intercalate "\n---\n" (formatResults 1 results) ∧
      (formatResults 1 results).length = results.length ∧
      (∀ (i : Nat) (d : RDoc), results[i]? = some d →
        (formatResults 1 results)[i]? =
          some ("**Result " ++ toString (1 + i) ++ "**\nSource: " ++
            d.source_file.getD "unknown" ++ "\n\nContent:\n" ++
            d.page_content ++ "\n"))) := by
  refine ⟨?_, notice_ne_empty, notice_ne_err, ?_⟩
  · intro h
    simp [recall_from_memory, h]
  · intro results h hne
    refine ⟨?_, formatResults_length 1 results,
      fun i d hd => formatResults_get results 1 i d hd⟩
    simp only [recall_from_memory, h]
    rw [if_neg (by simp [hne])]

/-- Witness for C9 at concrete inputs: a search with zero results yields the
notice; a search with one result yields the single numbered block. -/
theorem c9_witness :
    recall_from_memory envA "query" 3 = notice ∧
    recall_from_memory envE "query" 3 =
      String.intercalate "\n---\n"
        (formatResults 1 [RDoc.mk "hello world" (some "/a.txt")]) ∧
    (formatResults 1 [RDoc.mk "hello world" (some "/a.txt")])[0]? =
      some ("**Result " ++ toString (1 + 0) ++ "**\nSource: " ++
        (some "/a.txt").getD "unknown" ++ "\n\nContent:\n" ++
        "hello world" ++ "\n") :=
  ⟨(c9_recall_format envA "query" 3).1 rfl,
    ((c9_recall_format envE "query" 3).2.2.2 [RDoc.mk "hello world" (some "/a.txt")]
      rfl (by simp)).1,
    ((c9_recall_format envE "query" 3).2.2.2 [RDoc.mk "hello world" (some "/a.txt")]
      rfl (by simp)).2.2 0 (RDoc.mk "hello world" (some "/a.txt")) rfl⟩

/-- Claim C10: a path listed twice in one successful save call has its
chunks inserted once per occurrence.  The dedup pass only removes entries
present before the call (both iterations for the duplicated path run before
any insertion), so the final index holds two copies of the path's chunks:
the count for the canonical path is twice the single-occurrence chunk
count. -/
theorem c10_duplicate_occurrences (env : Env) (idx : VIndex) (p : String)
    (cs co : Int) (docs : List Chunk) (hcs : ¬ cs < co)
    (hr : env.dedupRaises (env.abspath p) = false)
    (hld : loadAndChunk env cs co [p] = Except.ok docs)
    (hins : env.insertRaises = false) :
    (save_to_memory env idx [p, p] cs co).1 = Outcome.returned (successMsg 2) ∧
    countFor (env.abspath p) (save_to_memory env idx [p, p] cs co).2 =
      2 * docs.length := by
  have hld2 : loadAndChunk env cs co [p, p] = Except.ok (docs ++ docs) :=
    loadAndChunk_append env cs co [p] [p] docs docs hld hld
  have hall : ∀ c ∈ docs, c.source_file = env.abspath p := by
    intro c hc
    rcases loadAndChunk_sources env cs co [p] docs hld c hc with ⟨fp, hfp, hcf⟩
    rw [List.mem_singleton] at hfp
    rw [hcf, hfp]
  have hfilter : docs.filter (fun c => c.source_file = env.abspath p) = docs :=
    List.filter_eq_self.mpr (fun c hc => by simp [hall c hc])
  rw [save_eq_success env idx [p, p] cs co (docs ++ docs) hcs hld2 hins]
  refine ⟨rfl, ?_⟩
  show countFor _ (addDocuments (docs ++ docs) (dedupPass env [p, p] idx)) = _
  rw [countFor_addDocuments,
    countFor_dedupPass_self env p hr [p, p] (List.mem_cons_self p [p]) idx,
    List.filter_append, hfilter, List.length_append]
  omega

/-- Witness for C10 at a concrete input: saving `["a.txt", "a.txt"]` over the
empty index leaves two entries for `/a.txt`. -/
theorem c10_witness :
    (¬ (1000 : Int) < 100) ∧
    envA.dedupRaises (envA.abspath "a.txt") = false ∧
    loadAndChunk envA 1000 100 ["a.txt"] =
      Except.ok [Chunk.mk "hello world" "/a.txt"] ∧
    countFor (envA.abspath "a.txt")
        (save_to_memory envA idx0 ["a.txt", "a.txt"] 1000 100).2 = 2 :=
  ⟨by decide, rfl, rfl,
    (c10_duplicate_occurrences envA idx0 "a.txt" 1000 100
      [Chunk.mk "hello world" "/a.txt"] (by decide) rfl rfl rfl).2⟩

end VectorMemory
